import Mathlib

/-!
# Verification of the go-ethereum observer chain (les/observer)

Shallow embedding of the observer-chain core: the RLP codec used by the
statement/block encoders, the statement and block data model with canonical
hashing and signing, the chain controller with its trie-lock state machine,
and the trie database with its bounded FIFO snapshot cache.

External collaborators are modelled as follows:
* the RLP codec (`github.com/ethereum/go-ethereum/rlp`) is implemented
  concretely below following the RLP specification (short/long string and
  list forms, minimal big-endian integer encodings); the decoder accepts a
  superset of canonical encodings (it omits the library's canonicality
  rejections, which only matter for inputs that are not produced by the
  encoder);
* `crypto.Keccak256` is modelled as a collision-free digest: an injective
  function of the input bytes (the standard collision-resistance
  idealization);
* `crypto.Sign` is modelled as a deterministic function of the private key
  and the digest.
-/

namespace RLP

/-- Fuel-indexed helper for the minimal big-endian representation; the
recursion is structural in the fuel, and a fuel of `n` always suffices. -/
def natToBeAux : Nat → Nat → List Nat
  | _, 0 => []
  | 0, _ + 1 => []
  | fuel + 1, n + 1 => natToBeAux fuel ((n + 1) / 256) ++ [(n + 1) % 256]

/-- Minimal big-endian byte representation of a natural number
(`0` encodes as the empty byte string), as used by the RLP codec for
integer and length encodings. -/
def natToBe (n : Nat) : List Nat := natToBeAux n n

/-- Big-endian interpretation of a byte string as a natural number. -/
def beToNat (l : List Nat) : Nat :=
  l.foldl (fun acc b => acc * 256 + b) 0

theorem beToNat_aux (l : List Nat) (a : Nat) :
    l.foldl (fun acc b => acc * 256 + b) a = a * 256 ^ l.length + beToNat l := by
  induction l generalizing a with
  | nil => simp [beToNat]
  | cons x xs ih =>
    simp only [List.foldl_cons, beToNat, List.length_cons]
    rw [ih, ih (0 * 256 + x)]
    ring

theorem beToNat_append_singleton (xs : List Nat) (b : Nat) :
    beToNat (xs ++ [b]) = beToNat xs * 256 + b := by
  simp [beToNat, List.foldl_append]

theorem natToBeAux_zero (fuel : Nat) : natToBeAux fuel 0 = [] := by
  cases fuel <;> rfl

theorem beToNat_natToBeAux (fuel : Nat) :
    ∀ n, n ≤ fuel → beToNat (natToBeAux fuel n) = n := by
  induction fuel with
  | zero =>
    intro n hn
    interval_cases n
    simp [natToBeAux, beToNat]
  | succ f ih =>
    intro n hn
    cases n with
    | zero => simp [natToBeAux, beToNat]
    | succ m =>
      have hdiv : (m + 1) / 256 ≤ f := by
        have : (m + 1) / 256 < m + 1 := Nat.div_lt_self (by omega) (by norm_num)
        omega
      show beToNat (natToBeAux f ((m + 1) / 256) ++ [(m + 1) % 256]) = m + 1
      rw [beToNat_append_singleton, ih _ hdiv]
      omega

/-- The big-endian encoding round-trips. -/
theorem beToNat_natToBe (n : Nat) : beToNat (natToBe n) = n :=
  beToNat_natToBeAux n n (le_refl n)

theorem natToBeAux_length_le {k : Nat} :
    ∀ {fuel n : Nat}, n ≤ fuel → n < 256 ^ k → (natToBeAux fuel n).length ≤ k := by
  induction k with
  | zero =>
    intro fuel n _ h
    interval_cases n
    simp [natToBeAux_zero]
  | succ k ih =>
    intro fuel n hn h
    cases n with
    | zero => simp [natToBeAux_zero]
    | succ m =>
      cases fuel with
      | zero => omega
      | succ f =>
        have hdiv : (m + 1) / 256 ≤ f := by
          have : (m + 1) / 256 < m + 1 := Nat.div_lt_self (by omega) (by norm_num)
          omega
        have hlt : (m + 1) / 256 < 256 ^ k := by
          rw [Nat.div_lt_iff_lt_mul (by norm_num)]
          calc m + 1 < 256 ^ (k + 1) := h
          _ = 256 ^ k * 256 := by ring
        show (natToBeAux f ((m + 1) / 256) ++ [(m + 1) % 256]).length ≤ k + 1
        have := ih hdiv hlt
        simp only [List.length_append, List.length_cons, List.length_nil]
        omega

/-- `natToBe n` has at most `k` digits when `n < 256 ^ k`. -/
theorem natToBe_length_le {n k : Nat} (h : n < 256 ^ k) : (natToBe n).length ≤ k :=
  natToBeAux_length_le (le_refl n) h

/-- RLP items: byte strings and (nested) lists, as in the RLP wire format. -/
inductive Item where
  | bytes : List Nat → Item
  | list : List Item → Item

/-- Emit an RLP length header: short form (`base + n`) for payloads shorter
than 56 bytes, long form (`base + 55 + |be n|` followed by the big-endian
length) otherwise. `base` is `0x80` for strings and `0xc0` for lists. -/
def encLen (base n : Nat) (payload : List Nat) : List Nat :=
  if n < 56 then (base + n) :: payload
  else (base + 55 + (natToBe n).length) :: (natToBe n ++ payload)

mutual

/-- RLP encoding of an item. A single byte below `0x80` encodes as itself;
other byte strings and lists carry a length header. -/
def encodeItem : Item → List Nat
  | .bytes s =>
    match s with
    | [b] => if b < 128 then [b] else encLen 128 1 [b]
    | _ => encLen 128 s.length s
  | .list xs =>
    let p := encodePayload xs
    encLen 192 p.length p

/-- Concatenation of the encodings of a list of items (an RLP list payload). -/
def encodePayload : List Item → List Nat
  | [] => []
  | x :: xs => encodeItem x ++ encodePayload xs

end

mutual

/-- Recursion-depth measure used to pick a sufficient fuel for the decoder. -/
def weight : Item → Nat
  | .bytes _ => 1
  | .list xs => 1 + weightList xs

/-- Depth measure for list payloads. -/
def weightList : List Item → Nat
  | [] => 0
  | x :: xs => 1 + max (weight x) (weightList xs)

end

mutual

/-- Fuel-indexed RLP item decoder, returning the decoded item and the
remaining bytes. Mirrors the branch structure of the RLP format: direct
byte, short/long string, short/long list. -/
def decodeItem : Nat → List Nat → Option (Item × List Nat)
  | 0, _ => none
  | _ + 1, [] => none
  | fuel + 1, b :: rest =>
    if b < 128 then some (.bytes [b], rest)
    else if b < 184 then
      let n := b - 128
      if rest.length < n then none
      else some (.bytes (rest.take n), rest.drop n)
    else if b < 192 then
      let k := b - 183
      if rest.length < k then none
      else
        let n := beToNat (rest.take k)
        let r2 := rest.drop k
        if r2.length < n then none
        else some (.bytes (r2.take n), r2.drop n)
    else if b < 248 then
      let n := b - 192
      if rest.length < n then none
      else
        match decodeItems fuel (rest.take n) with
        | some items => some (.list items, rest.drop n)
        | none => none
    else
      let k := b - 247
      if rest.length < k then none
      else
        let n := beToNat (rest.take k)
        let r2 := rest.drop k
        if r2.length < n then none
        else
          match decodeItems fuel (r2.take n) with
          | some items => some (.list items, r2.drop n)
          | none => none

/-- Fuel-indexed decoder for an RLP list payload: repeatedly decode items
until the payload is exhausted. -/
def decodeItems : Nat → List Nat → Option (List Item)
  | _, [] => some []
  | 0, _ :: _ => none
  | fuel + 1, b :: rest =>
    match decodeItem fuel (b :: rest) with
    | some (it, r) =>
      match decodeItems fuel r with
      | some its => some (it :: its)
      | none => none
    | none => none

end

mutual

/-- Well-formedness of an item: every byte string and every list payload is
shorter than `2 ^ 64` bytes, the domain of the RLP length header (in the Go
implementation these are bounded by the slice length type). -/
def wfB : Item → Bool
  | .bytes s => decide (s.length < 2 ^ 64)
  | .list xs => decide ((encodePayload xs).length < 2 ^ 64) && wfListB xs

/-- Well-formedness of a list payload. -/
def wfListB : List Item → Bool
  | [] => true
  | x :: xs => wfB x && wfListB xs

end

theorem natToBe_ne_nil {n : Nat} (h : n ≠ 0) : natToBe n ≠ [] := by
  intro he
  have := beToNat_natToBe n
  rw [he] at this
  simp [beToNat] at this
  omega

theorem weight_pos (x : Item) : 1 ≤ weight x := by
  cases x <;> simp [weight]

theorem encodeItem_ne_nil (x : Item) : encodeItem x ≠ [] := by
  cases x with
  | bytes s =>
    match s with
    | [] => simp [encodeItem, encLen]
    | [b] =>
      simp only [encodeItem]
      split
      · simp
      · simp [encLen]
    | b1 :: b2 :: t =>
      simp only [encodeItem, encLen]
      split <;> simp
  | list xs =>
    simp only [encodeItem, encLen]
    split <;> simp

/-- Soundness of the RLP decoder against the encoder: decoding the encoding
of a well-formed item (with any trailing bytes) returns exactly that item
and the trailing bytes, for any sufficient fuel. -/
theorem decode_encode (fuel : Nat) :
    (∀ (x : Item) (r : List Nat), wfB x = true → weight x ≤ fuel →
      decodeItem fuel (encodeItem x ++ r) = some (x, r)) ∧
    (∀ xs : List Item, wfListB xs = true → weightList xs ≤ fuel →
      decodeItems fuel (encodePayload xs) = some xs) := by
  induction fuel with
  | zero =>
    constructor
    · intro x r _ hw
      have := weight_pos x
      omega
    · intro xs hwf hw
      cases xs with
      | nil => rfl
      | cons x xs => simp [weightList] at hw
  | succ f ih =>
    have ih1 := ih.1
    have ih2 := ih.2
    constructor
    · intro x r hwf hw
      cases x with
      | bytes s =>
        match s with
        | [] =>
          show decodeItem (f + 1) (encodeItem (.bytes []) ++ r) = _
          simp only [encodeItem, encLen]
          rw [if_pos (by simp)]
          show decodeItem (f + 1) ((128 + 0) :: ([] ++ r)) = _
          rw [decodeItem]
          rw [if_neg (by omega), if_pos (by omega)]
          simp
        | [b] =>
          by_cases hb : b < 128
          · show decodeItem (f + 1) (encodeItem (.bytes [b]) ++ r) = _
            simp only [encodeItem, if_pos hb]
            show decodeItem (f + 1) (b :: r) = _
            rw [decodeItem, if_pos hb]
          · show decodeItem (f + 1) (encodeItem (.bytes [b]) ++ r) = _
            simp only [encodeItem, if_neg hb, encLen]
            rw [if_pos (by omega)]
            show decodeItem (f + 1) ((128 + 1) :: ([b] ++ r)) = _
            rw [decodeItem]
            rw [if_neg (by omega), if_pos (by omega)]
            simp
        | b1 :: b2 :: t =>
          show decodeItem (f + 1) (encodeItem (.bytes (b1 :: b2 :: t)) ++ r) = _
          simp only [encodeItem, encLen]
          set s := b1 :: b2 :: t with hs
          by_cases hlen : s.length < 56
          · rw [if_pos hlen]
            show decodeItem (f + 1) ((128 + s.length) :: (s ++ r)) = _
            rw [decodeItem]
            rw [if_neg (by omega), if_pos (by omega)]
            have hn : 128 + s.length - 128 = s.length := by omega
            simp only [hn]
            rw [if_neg (by simp only [List.length_append]; omega)]
            rw [List.take_left' rfl, List.drop_left' rfl]
          · rw [if_neg hlen]
            have hlt : s.length < 2 ^ 64 := by
              have : wfB (.bytes s) = true := hwf
              simpa [wfB] using this
            have hk8 : (natToBe s.length).length ≤ 8 := natToBe_length_le (by norm_num at hlt ⊢; omega)
            have hk1 : 1 ≤ (natToBe s.length).length := by
              have : natToBe s.length ≠ [] := natToBe_ne_nil (by omega)
              cases hne : natToBe s.length with
              | nil => exact absurd hne this
              | cons a l => simp [hne]
            set k := (natToBe s.length).length with hkdef
            show decodeItem (f + 1) ((128 + 55 + k) :: (natToBe s.length ++ s ++ r)) = _
            rw [decodeItem]
            rw [if_neg (by omega), if_neg (by omega), if_pos (by omega)]
            have hkk : 128 + 55 + k - 183 = k := by omega
            simp only [hkk]
            rw [List.append_assoc]
            rw [if_neg (by simp only [List.length_append]; omega)]
            rw [List.take_left' hkdef.symm, List.drop_left' hkdef.symm, beToNat_natToBe]
            rw [if_neg (by simp only [List.length_append]; omega)]
            rw [List.take_left' rfl, List.drop_left' rfl]
      | list xs =>
        have hwf' : wfListB xs = true ∧ (encodePayload xs).length < 2 ^ 64 := by
          have : wfB (.list xs) = true := hwf
          simp [wfB] at this
          exact ⟨this.2, this.1⟩
        have hwxs : weightList xs ≤ f := by
          simp only [weight] at hw
          omega
        have hdec : decodeItems f (encodePayload xs) = some xs := ih2 xs hwf'.1 hwxs
        show decodeItem (f + 1) (encodeItem (.list xs) ++ r) = _
        simp only [encodeItem, encLen]
        set p := encodePayload xs with hp
        by_cases hlen : p.length < 56
        · rw [if_pos hlen]
          show decodeItem (f + 1) ((192 + p.length) :: (p ++ r)) = _
          rw [decodeItem]
          rw [if_neg (by omega), if_neg (by omega), if_neg (by omega), if_pos (by omega)]
          have hn : 192 + p.length - 192 = p.length := by omega
          simp only [hn]
          rw [if_neg (by simp only [List.length_append]; omega)]
          rw [List.take_left' rfl, List.drop_left' rfl, hdec]
        · rw [if_neg hlen]
          have hlt : p.length < 2 ^ 64 := hwf'.2
          have hk8 : (natToBe p.length).length ≤ 8 := natToBe_length_le (by norm_num at hlt ⊢; omega)
          have hk1 : 1 ≤ (natToBe p.length).length := by
            have : natToBe p.length ≠ [] := natToBe_ne_nil (by omega)
            cases hne : natToBe p.length with
            | nil => exact absurd hne this
            | cons a l => simp [hne]
          set k := (natToBe p.length).length with hkdef
          show decodeItem (f + 1) ((192 + 55 + k) :: (natToBe p.length ++ p ++ r)) = _
          rw [decodeItem]
          rw [if_neg (by omega), if_neg (by omega), if_neg (by omega), if_neg (by omega)]
          have hkk : 192 + 55 + k - 247 = k := by omega
          simp only [hkk]
          rw [List.append_assoc]
          rw [if_neg (by simp only [List.length_append]; omega)]
          rw [List.take_left' hkdef.symm, List.drop_left' hkdef.symm, beToNat_natToBe]
          rw [if_neg (by simp only [List.length_append]; omega)]
          rw [List.take_left' rfl, List.drop_left' rfl, hdec]
    · intro xs hwf hw
      cases xs with
      | nil => rfl
      | cons x xs =>
        have hwf' : wfB x = true ∧ wfListB xs = true := by
          simp [wfListB] at hwf
          exact hwf
        have hwx : weight x ≤ f := by
          simp only [weightList] at hw
          omega
        have hwxs : weightList xs ≤ f := by
          simp only [weightList] at hw
          omega
        obtain ⟨b, t, hbt⟩ : ∃ b t, encodeItem x = b :: t := by
          cases he : encodeItem x with
          | nil => exact absurd he (encodeItem_ne_nil x)
          | cons b t => exact ⟨b, t, rfl⟩
        show decodeItems (f + 1) (encodeItem x ++ encodePayload xs) = _
        rw [hbt]
        show decodeItems (f + 1) (b :: (t ++ encodePayload xs)) = _
        rw [decodeItems]
        rw [show b :: (t ++ encodePayload xs) = encodeItem x ++ encodePayload xs by rw [hbt]; rfl]
        rw [ih1 x (encodePayload xs) hwf'.1 hwx]
        show (match decodeItems f (encodePayload xs) with
          | some its => some (x :: its)
          | none => none) = some (x :: xs)
        rw [ih2 xs hwf'.2 hwxs]

mutual

/-- The decoder fuel bound: an item's weight is below twice its encoded
length. -/
theorem weight_le_encode (x : Item) : weight x + 1 ≤ 2 * (encodeItem x).length := by
  cases x with
  | bytes s =>
    match s with
    | [] => simp [weight, encodeItem, encLen]
    | [b] =>
      simp only [weight, encodeItem]
      split
      · simp
      · simp [encLen]
    | b1 :: b2 :: t =>
      simp only [weight, encodeItem, encLen]
      split <;> simp <;> omega
  | list xs =>
    have h := weightList_le_encode xs
    have h1 : 1 ≤ (encodePayload xs).length + 1 := by omega
    simp only [weight, encodeItem, encLen]
    split <;> simp only [List.length_cons, List.length_append] <;> omega

/-- Payload analogue of `weight_le_encode`. -/
theorem weightList_le_encode (xs : List Item) :
    weightList xs ≤ 2 * (encodePayload xs).length := by
  cases xs with
  | nil => simp [weightList, encodePayload]
  | cons x xs =>
    have hx := weight_le_encode x
    have hxs := weightList_le_encode xs
    have hpos : 1 ≤ (encodeItem x).length := by
      cases he : encodeItem x with
      | nil => exact absurd he (encodeItem_ne_nil x)
      | cons b t => simp
    simp only [weightList, encodePayload, List.length_append]
    rcases Nat.le_total (weight x) (weightList xs) with h | h
    · rw [Nat.max_eq_right h]; omega
    · rw [Nat.max_eq_left h]; omega

end

theorem encodePayload_cons_pos (x : Item) (xs : List Item) :
    1 ≤ (encodePayload (x :: xs)).length := by
  show 1 ≤ (encodeItem x ++ encodePayload xs).length
  have hne := encodeItem_ne_nil x
  cases he : encodeItem x with
  | nil => exact absurd he hne
  | cons b t => simp

theorem encodeItem_list_cons_length (x : Item) (xs : List Item) :
    2 ≤ (encodeItem (.list (x :: xs))).length := by
  have hp := encodePayload_cons_pos x xs
  simp only [encodeItem, encLen]
  split
  · simp only [List.length_cons]
    omega
  · simp only [List.length_cons, List.length_append]
    omega

/-- Decode one complete RLP item from a byte string; the fuel is sufficient
for anything the encoder produces. -/
def decodeTop (bs : List Nat) : Option (Item × List Nat) :=
  decodeItem (2 * bs.length + 1) bs

/-- Decoding the encoding of a well-formed item consumes it entirely and
returns it. -/
theorem decodeTop_encodeItem (x : Item) (h : wfB x = true) :
    decodeTop (encodeItem x) = some (x, []) := by
  have hw : weight x ≤ 2 * (encodeItem x).length + 1 := by
    have := weight_le_encode x
    omega
  have := (decode_encode (2 * (encodeItem x).length + 1)).1 x [] h hw
  simpa [decodeTop] using this

/-- The RLP encoder is injective on well-formed items (canonical encoding). -/
theorem encodeItem_inj {x y : Item} (hx : wfB x = true) (hy : wfB y = true)
    (h : encodeItem x = encodeItem y) : x = y := by
  have h1 := decodeTop_encodeItem x hx
  have h2 := decodeTop_encodeItem y hy
  rw [h] at h1
  rw [h1] at h2
  injection h2 with h3
  injection h3

end RLP

namespace Observer

/-- Byte strings (digests, keys, values, signatures). -/
abbrev Bytes := List Nat

/-- Model of `crypto.Keccak256`: a collision-free digest, injective by
construction (length-prefixed copy of the input), standing in for the
collision-resistance idealization of keccak256. -/
def keccak256 (bs : Bytes) : Bytes := bs.length :: bs

theorem keccak256_inj {a b : Bytes} (h : keccak256 a = keccak256 b) : a = b := by
  simpa [keccak256] using congrArg List.tail h

/-- Model of `crypto.Sign`: a deterministic signature, a function of the
private key and the signed digest only. Like the real 65-byte ECDSA
signature it has a fixed short length; the digest is folded into one
big-endian word. -/
def ecdsaSign (key : Nat) (digest : Bytes) : Bytes :=
  [65, key, RLP.beToNat digest]

/-- The all-zero 32-byte hash (`common.Hash{}`). -/
def zeroHash : Bytes := List.replicate 32 0

/-- The bytes of the string `"ECDSA"`. -/
def ecdsaType : Bytes := [69, 67, 68, 83, 65]

/-- `rlpHash`: keccak256 of the RLP encoding (shared helper of the observer
package). -/
def rlpHash (it : RLP.Item) : Bytes := keccak256 (RLP.encodeItem it)

end Observer

namespace P8

open Observer

/-- `keyValue` (part_008): key, value and the V/R/S signature values of a
statement. V, R, S are `big.Int`s, modelled as naturals. -/
structure keyValue where
  Key : Bytes
  Value : Bytes
  V : Nat
  R : Nat
  S : Nat
deriving Repr, DecidableEq

/-- The RLP structure of a `keyValue` (the encoding used by
`Statement.EncodeRLP`): a five-element list; `big.Int`s encode as minimal
big-endian byte strings. -/
def keyValue.toItem (kv : keyValue) : RLP.Item :=
  .list [.bytes kv.Key, .bytes kv.Value, .bytes (RLP.natToBe kv.V),
    .bytes (RLP.natToBe kv.R), .bytes (RLP.natToBe kv.S)]

/-- `Statement.EncodeRLP`: RLP-encode the statement's `kv` data. -/
def keyValue.encode (kv : keyValue) : Bytes := RLP.encodeItem kv.toItem

/-- Reconstruct a `keyValue` from a decoded RLP item (the shape check the
codec performs when filling the struct). -/
def keyValue.fromItem : RLP.Item → Option keyValue
  | .list [.bytes k, .bytes v, .bytes bv, .bytes br, .bytes bs] =>
    some ⟨k, v, RLP.beToNat bv, RLP.beToNat br, RLP.beToNat bs⟩
  | _ => none

/-- Decode a full statement encoding back into its `kv` content. -/
def keyValue.decode (bs : Bytes) : Option keyValue :=
  match RLP.decodeTop bs with
  | some (it, []) => keyValue.fromItem it
  | _ => none

theorem keyValue.fromItem_toItem_kv (kv : keyValue) :
    keyValue.fromItem kv.toItem = some kv := by
  simp [keyValue.fromItem, keyValue.toItem, RLP.beToNat_natToBe]

/-- Statement-level round-trip: decoding the encoding of a well-formed
statement content yields it back. -/
theorem keyValue.decode_encode_kv (kv : keyValue) (h : RLP.wfB kv.toItem = true) :
    keyValue.decode (keyValue.encode kv) = some kv := by
  unfold keyValue.decode keyValue.encode
  rw [RLP.decodeTop_encodeItem kv.toItem h]
  exact keyValue.fromItem_toItem_kv kv

/-- Codec errors surfaced by `DecodeRLP`. -/
inductive Err where
  | codecError
deriving Repr, DecidableEq

/-- `Statement` (part_008): the `kv` payload plus the hash and size caches. -/
structure Statement where
  kv : keyValue
  hashCache : Option Bytes := none
  sizeCache : Option Nat := none
deriving Repr, DecidableEq

/-- `Statement.DecodeRLP`: on success the key/value content is replaced and
the size cache is set from the consumed encoding; on failure the codec
error is surfaced and the receiver is unchanged (the external codec's
struct decode is modelled as atomic). -/
def Statement.decodeRLP (s : Statement) (bs : Bytes) : Statement × Option Err :=
  match keyValue.decode bs with
  | some kv => ({ s with kv := kv, sizeCache := some bs.length }, none)
  | none => (s, some .codecError)

/-- `Statement.Hash`: keccak256 of the statement's RLP encoding, memoized. -/
def Statement.Hash (s : Statement) : Bytes × Statement :=
  match s.hashCache with
  | some h => (h, s)
  | none =>
    let v := rlpHash s.kv.toItem
    (v, { s with hashCache := some v })

end P8

namespace P1

open Observer

/-- `Header` (part_001): block header fields. `Number` and `Time` are
`uint64`s, modelled as naturals (the claims constrain them below `2 ^ 64`
where it matters). -/
structure Header where
  PrevHash : Bytes
  Number : Nat
  Time : Nat
  StmtsRoot : Bytes
  SignatureType : Bytes
  Signature : Bytes
deriving Repr, DecidableEq

/-- The RLP structure of a header: a six-element list. -/
def Header.toItem (h : Header) : RLP.Item :=
  .list [.bytes h.PrevHash, .bytes (RLP.natToBe h.Number),
    .bytes (RLP.natToBe h.Time), .bytes h.StmtsRoot,
    .bytes h.SignatureType, .bytes h.Signature]

/-- `Header.hash`: keccak256 of the RLP encoding of the header, all fields
included. -/
def Header.hash (h : Header) : Bytes := rlpHash h.toItem

/-- The header with its `Signature` field at the zero value, the struct the
signing digest is computed over. -/
def Header.unsigned (h : Header) : Header := { h with Signature := [] }

/-- The digest `Header.sign` signs: keccak256 of the RLP encoding of the
header with `Signature` zeroed. -/
def Header.signingDigest (h : Header) : Bytes := rlpHash h.unsigned.toItem

/-- `Header.sign`: store the signature over the signing digest. -/
def Header.sign (key : Nat) (h : Header) : Header :=
  { h with Signature := ecdsaSign key h.signingDigest }

/-- Reconstruct a header from a decoded RLP item, with the shape checks the
codec performs: 32-byte hashes and at most 8-byte (`uint64`) integers. -/
def Header.fromItem : RLP.Item → Option Header
  | .list [.bytes ph, .bytes bn, .bytes bt, .bytes sr, .bytes st, .bytes sg] =>
    if ph.length = 32 ∧ bn.length ≤ 8 ∧ bt.length ≤ 8 ∧ sr.length = 32 then
      some ⟨ph, RLP.beToNat bn, RLP.beToNat bt, sr, st, sg⟩
    else none
  | _ => none

/-- `Block` content (part_001): a header and the ordered statement list.
The hash/size caches are immaterial to the encoding claims and are carried
by the operations that need them. -/
structure Block where
  header : Header
  statements : List P8.keyValue
deriving Repr, DecidableEq

/-- `encBlock`: a block encodes as the pair (header, statement list). -/
def Block.toItem (b : Block) : RLP.Item :=
  .list [b.header.toItem, .list (b.statements.map P8.keyValue.toItem)]

/-- `Block.EncodeRLP`. -/
def Block.encode (b : Block) : Bytes := RLP.encodeItem b.toItem

/-- Reconstruct a block from a decoded RLP item. -/
def Block.fromItem : RLP.Item → Option Block
  | .list [hi, .list sis] =>
    match Header.fromItem hi, sis.mapM P8.keyValue.fromItem with
    | some h, some sts => some ⟨h, sts⟩
    | _, _ => none
  | _ => none

/-- `Block.DecodeRLP`: decode a full block encoding back into its content. -/
def Block.decode (bs : Bytes) : Option Block :=
  match RLP.decodeTop bs with
  | some (it, []) => Block.fromItem it
  | _ => none

/-- Well-formedness of a header for the codec: hash fields are 32 bytes and
the `uint64` fields are in range. -/
def Header.wf (h : Header) : Prop :=
  h.PrevHash.length = 32 ∧ h.Number < 2 ^ 64 ∧ h.Time < 2 ^ 64 ∧ h.StmtsRoot.length = 32

instance : DecidablePred Header.wf := fun h => by
  unfold Header.wf
  infer_instance

theorem Header.fromItem_toItem_hdr (h : Header) (hwf : h.wf) :
    Header.fromItem h.toItem = some h := by
  obtain ⟨h1, h2, h3, h4⟩ := hwf
  have hn : (RLP.natToBe h.Number).length ≤ 8 :=
    RLP.natToBe_length_le (by norm_num at h2 ⊢; omega)
  have ht : (RLP.natToBe h.Time).length ≤ 8 :=
    RLP.natToBe_length_le (by norm_num at h3 ⊢; omega)
  simp [Header.fromItem, Header.toItem, h1, h4, hn, ht, RLP.beToNat_natToBe]

theorem Block.fromItem_toItem_blk (b : Block) (hwf : b.header.wf) :
    Block.fromItem b.toItem = some b := by
  have hsts : (b.statements.map P8.keyValue.toItem).mapM P8.keyValue.fromItem
      = some b.statements := by
    induction b.statements with
    | nil => rfl
    | cons s ss ih =>
      simp only [List.map_cons, List.mapM_cons, P8.keyValue.fromItem_toItem_kv, ih]
      rfl
  show (match Header.fromItem b.header.toItem,
      (b.statements.map P8.keyValue.toItem).mapM P8.keyValue.fromItem with
    | some h, some sts => some ⟨h, sts⟩
    | _, _ => none) = some b
  rw [Header.fromItem_toItem_hdr b.header hwf, hsts]

/-- Block-level round-trip. -/
theorem Block.decode_encode_blk (b : Block) (hwf : b.header.wf)
    (hwfb : RLP.wfB b.toItem = true) :
    Block.decode (Block.encode b) = some b := by
  unfold Block.decode Block.encode
  rw [RLP.decodeTop_encodeItem b.toItem hwfb]
  exact Block.fromItem_toItem_blk b hwf

end P1

namespace Observer

/-- `types.DeriveSha` model: an injective digest of the ordered sequence of
canonical statement encodings (`Statements.GetRlp` leaves). -/
def deriveSha (stmts : List P8.keyValue) : Bytes :=
  keccak256 (RLP.encodeItem (.list (stmts.map (fun s => .bytes (P8.keyValue.encode s)))))

/-- `types.EmptyRootHash` model: the root of the empty statement sequence
(the concrete go-ethereum constant equals `DeriveSha` of an empty list). -/
def emptyRootHash : Bytes := deriveSha []

/-- A non-empty statement sequence never derives the empty-root constant
(collision-free digest model). -/
theorem deriveSha_ne_empty {stmts : List P8.keyValue} (h : stmts ≠ []) :
    deriveSha stmts ≠ emptyRootHash := by
  cases stmts with
  | nil => exact absurd rfl h
  | cons s ss =>
    intro he
    have henc := keccak256_inj he
    have h1 := congrArg List.length henc
    simp only [List.map_cons, List.map_nil] at h1
    have h3 := RLP.encodeItem_list_cons_length (.bytes (P8.keyValue.encode s))
      (ss.map (fun t => .bytes (P8.keyValue.encode t)))
    rw [h1] at h3
    have h4 : (RLP.encodeItem (.list ([] : List RLP.Item))).length = 1 := rfl
    rw [h4] at h3
    omega

end Observer

namespace P1

open Observer

/-- part_001 `Block` with its lazy hash cache (`hash atomic.Value`); the
statements and header are the content encoded by the block codec above. -/
structure BlockC where
  header : Header
  statements : List P8.keyValue
  hashCache : Option Bytes := none
deriving Repr, DecidableEq

/-- `Block.Hash` (part_001): keccak256 of the header, computed on first
call and cached thereafter. Returns the hash and the updated block. -/
def BlockC.Hash (b : BlockC) : Bytes × BlockC :=
  match b.hashCache with
  | some h => (h, b)
  | none => (b.header.hash, { b with hashCache := some b.header.hash })

/-- `Block.CreateSuccessor` (part_001): a new block with
`PrevHash = b.Hash()`, `Number = b.Number + 1` (uint64 arithmetic), a fresh
timestamp, the state root derived from the statements (the empty-root
constant for an empty list), signed with the given key. -/
def BlockC.CreateSuccessor (b : BlockC) (stmts : List P8.keyValue)
    (key : Nat) (now : Nat) : BlockC :=
  let hdr : Header :=
    { PrevHash := b.Hash.1
      Number := (b.header.Number + 1) % 2 ^ 64
      Time := now
      StmtsRoot := if stmts = [] then emptyRootHash else deriveSha stmts
      SignatureType := ecdsaType
      Signature := [] }
  { header := hdr.sign key
    statements := stmts
    hashCache := none }

end P1

namespace BlockGo

open Observer

/-- `blockData` (src/les/observer/block.go): the data fields of a block. -/
structure blockData where
  PrevHash : Bytes
  Number : Nat
  UnixTime : Nat
  Statements : Bytes
  SignatureType : Bytes
  Signature : Bytes
deriving Repr, DecidableEq

/-- The RLP structure of `blockData`: a six-element list. -/
def blockData.toItem (d : blockData) : RLP.Item :=
  .list [.bytes d.PrevHash, .bytes (RLP.natToBe d.Number),
    .bytes (RLP.natToBe d.UnixTime), .bytes d.Statements,
    .bytes d.SignatureType, .bytes d.Signature]

/-- `blockData.hash`: keccak256 of the RLP encoding of the data, all
fields — the populated `Signature` included. This is the block identity
hash. -/
def blockData.hash (d : blockData) : Bytes := rlpHash d.toItem

/-- The data with the `Signature` field at its zero value, the struct the
signing digest is computed over. -/
def blockData.unsigned (d : blockData) : blockData := { d with Signature := [] }

/-- The digest `blockData.sign` signs: keccak256 of the RLP encoding with
`Signature` unset. -/
def blockData.signingDigest (d : blockData) : Bytes := rlpHash d.unsigned.toItem

/-- `blockData.sign`: store the signature over the signing digest. -/
def blockData.sign (key : Nat) (d : blockData) : blockData :=
  { d with Signature := ecdsaSign key d.signingDigest }

/-- `Block` (block.go): data plus hash/size caches. -/
structure Block where
  data : blockData
  hashCache : Option Bytes := none
deriving Repr, DecidableEq

/-- `NewBlock` (block.go): number 0, zero parent hash, fresh timestamp,
state root the empty-root constant for an empty statement list and the
derived Merkle root otherwise, signed immediately. -/
def NewBlock (sts : List P8.keyValue) (key : Nat) (now : Nat) : Block :=
  let d : blockData :=
    { PrevHash := zeroHash
      Number := 0
      UnixTime := now
      Statements := if sts = [] then emptyRootHash else deriveSha sts
      SignatureType := ecdsaType
      Signature := [] }
  { data := d.sign key }

end BlockGo

namespace P3

open Observer

/-- `Header` (part_003): the six header fields. -/
structure Header where
  PrevHash : Bytes
  Number : Nat
  UnixTime : Nat
  Statements : Bytes
  SignatureType : Bytes
  Signature : Bytes
deriving Repr, DecidableEq

/-- The RLP structure of a part_003 header. -/
def Header.toItem (h : Header) : RLP.Item :=
  .list [.bytes h.PrevHash, .bytes (RLP.natToBe h.Number),
    .bytes (RLP.natToBe h.UnixTime), .bytes h.Statements,
    .bytes h.SignatureType, .bytes h.Signature]

/-- `Header.Hash` (part_003): keccak256 of the header's RLP encoding. -/
def Header.Hash (h : Header) : Bytes := rlpHash h.toItem

/-- `Block` (part_003): a header plus the hash and size caches. -/
structure Block where
  header : Header
  hashCache : Option Bytes := none
deriving Repr, DecidableEq

/-- `Block.Hash` (part_003): the header hash, computed on the first call
and cached thereafter; the cache is never invalidated. -/
def Block.Hash (b : Block) : Bytes × Block :=
  match b.hashCache with
  | some h => (h, b)
  | none => (b.header.Hash, { b with hashCache := some b.header.Hash })

/-- `Block.Sign` (part_003): computes the signing digest over the header
with `Signature` at its zero value and stores the resulting signature,
mutating the header in place. The caches are left untouched. -/
def Block.Sign (key : Nat) (b : Block) : Block :=
  let unsignedHeader : Header := { b.header with Signature := [] }
  let signedHeader : Header :=
    { b.header with Signature := ecdsaSign key (rlpHash unsignedHeader.toItem) }
  { b with header := signedHeader }

end P3

namespace P2

open Observer

/-- `Block` (part_002, the flat block the part_006 chain uses): all fields
on the struct itself, `TrieRoot` in place of a statements root. -/
structure Block where
  PrevHash : Bytes
  Number : Nat
  UnixTime : Nat
  TrieRoot : Bytes
  SignatureType : Bytes
  Signature : Bytes
deriving Repr, DecidableEq

/-- The RLP structure of a flat block: a six-element list. -/
def Block.toItem (b : Block) : RLP.Item :=
  .list [.bytes b.PrevHash, .bytes (RLP.natToBe b.Number),
    .bytes (RLP.natToBe b.UnixTime), .bytes b.TrieRoot,
    .bytes b.SignatureType, .bytes b.Signature]

/-- RLP encoding of a flat block (used by `WriteBlock`). -/
def Block.encode (b : Block) : Bytes := RLP.encodeItem b.toItem

/-- Reconstruct a flat block from a decoded RLP item, with the codec's
shape checks (32-byte hashes, `uint64` integers). -/
def Block.fromItem : RLP.Item → Option Block
  | .list [.bytes ph, .bytes bn, .bytes bt, .bytes tr, .bytes st, .bytes sg] =>
    if ph.length = 32 ∧ bn.length ≤ 8 ∧ bt.length ≤ 8 ∧ tr.length = 32 then
      some ⟨ph, RLP.beToNat bn, RLP.beToNat bt, tr, st, sg⟩
    else none
  | _ => none

/-- Decode a full flat-block encoding (used by `GetBlock`). -/
def Block.decode (bs : Bytes) : Option Block :=
  match RLP.decodeTop bs with
  | some (it, []) => Block.fromItem it
  | _ => none

/-- `Block.sign` (part_002): signature over the keccak256 digest of the
RLP encoding of the block with `Signature` at its zero value. -/
def Block.sign (key : Nat) (b : Block) : Block :=
  let unsignedBlock : Block := { b with Signature := [] }
  { b with Signature := ecdsaSign key (keccak256 (RLP.encodeItem unsignedBlock.toItem)) }

/-- `NewBlock` (part_002): number 0, zero previous hash, fresh timestamp,
`TrieRoot` left at the zero value, signed immediately. -/
def NewBlock (key : Nat) (now : Nat) : Block :=
  Block.sign key
    { PrevHash := zeroHash
      Number := 0
      UnixTime := now
      TrieRoot := zeroHash
      SignatureType := ecdsaType
      Signature := [] }

/-- `Block.Hash`: the block identity hash, keccak256 of the RLP encoding
of the (signed) block. -/
def Block.hash (b : Block) : Bytes := rlpHash b.toItem

/-- `Block.TrieRoot()` accessor used by the chain. -/
def Block.trieRoot (b : Block) : Bytes := b.TrieRoot

/-- Codec well-formedness of a flat block. -/
def Block.wf (b : Block) : Prop :=
  b.PrevHash.length = 32 ∧ b.Number < 2 ^ 64 ∧ b.UnixTime < 2 ^ 64 ∧ b.TrieRoot.length = 32

instance : DecidablePred Block.wf := fun b => by
  unfold Block.wf
  infer_instance

theorem Block.fromItem_toItem_flat (b : Block) (hwf : b.wf) :
    Block.fromItem b.toItem = some b := by
  obtain ⟨h1, h2, h3, h4⟩ := hwf
  have hn : (RLP.natToBe b.Number).length ≤ 8 :=
    RLP.natToBe_length_le (by norm_num at h2 ⊢; omega)
  have ht : (RLP.natToBe b.UnixTime).length ≤ 8 :=
    RLP.natToBe_length_le (by norm_num at h3 ⊢; omega)
  simp [Block.fromItem, Block.toItem, h1, h4, hn, ht, RLP.beToNat_natToBe]

theorem Block.decode_encode_flat (b : Block) (hwf : b.wf)
    (hwfb : RLP.wfB b.toItem = true) :
    Block.decode (Block.encode b) = some b := by
  unfold Block.decode Block.encode
  rw [RLP.decodeTop_encodeItem b.toItem hwfb]
  exact Block.fromItem_toItem_flat b hwf

end P2

namespace P6

open Observer

/-- Trie lock statuses (part_006 constants `locked`/`unlocked`/`unlocking`). -/
inductive TrieStatus where
  | locked
  | unlocked
  | unlocking
deriving Repr, DecidableEq

/-- The errors the part_006 chain surfaces. -/
inductive ChainErr where
  | noFirstBlock
  | noBlock
  | trieIsAlreadyLocked
deriving Repr, DecidableEq

/-- The backing key-value store, restricted to the keys the observer chain
uses: per-number block records (`"obs-" + big-endian number`), the head
pointer (`"lastBlock"`), and the set of state roots resolvable by
`trie.New` (put there by external trie commits). -/
structure Store where
  blocks : List (Nat × Bytes) := []
  head : Option Bytes := none
  trieRoots : List Bytes := []
deriving Repr, DecidableEq

/-- The empty store. -/
def Store.empty : Store := {}

/-- Raw block-record lookup (`db.Get(mkBlockKey number)`); an absent key
reads as an empty byte string, exactly as the Go code treats it. -/
def Store.getBlockBytes (db : Store) (n : Nat) : Bytes :=
  match db.blocks.find? (fun p => p.1 == n) with
  | some p => p.2
  | none => []

/-- Raw block-record write (`db.Put(mkBlockKey number, data)`). -/
def Store.putBlockBytes (db : Store) (n : Nat) (data : Bytes) : Store :=
  { db with blocks := (n, data) :: db.blocks }

/-- `GetBlock` (database_util): read the record for the number; an empty
record or an RLP decode failure reads as "no block" (`nil`). -/
def GetBlock (db : Store) (n : Nat) : Option P2.Block :=
  let data := db.getBlockBytes n
  if data = [] then none
  else P2.Block.decode data

/-- `WriteBlock` (database_util): serialize the block and store it under
its number's key. -/
def WriteBlock (db : Store) (b : P2.Block) : Store :=
  db.putBlockBytes b.Number b.encode

/-- `WriteLastObserverBlockHash` (database_util): store the head block hash
under `"lastBlock"`. -/
def WriteLastObserverBlockHash (db : Store) (h : Bytes) : Store :=
  { db with head := some h }

/-- The trie handle `trie.New` returns. -/
structure Trie where
  root : Bytes
deriving Repr, DecidableEq

/-- Model of `trie.New(root, db)`: opening succeeds for the zero/empty root
(a fresh empty trie) and for roots committed to the backing store, and
fails for an unresolvable root. -/
def trieNew (root : Bytes) (db : Store) : Option Trie :=
  if root = zeroHash ∨ root = emptyRootHash ∨ root ∈ db.trieRoots then some ⟨root⟩
  else none

/-- `Chain` (part_006): the store, first and current blocks, signing key,
and the atomically updated trie status (`none` when never stored). -/
structure Chain where
  db : Store
  firstBlock : P2.Block
  currentBlock : P2.Block
  privateKey : Nat
  trieStatus : Option TrieStatus := none
deriving Repr, DecidableEq

/-- `NewChain` (part_006): store `unlocked`, load block 0 from the store,
synthesize a fresh genesis if absent, record it as both first and current
block, persist it and the head pointer. -/
def NewChain (db : Store) (privKey : Nat) (now : Nat) : Chain :=
  let firstBlock :=
    match GetBlock db 0 with
    | some b => b
    | none => P2.NewBlock privKey now
  let db1 := WriteBlock db firstBlock
  let db2 := WriteLastObserverBlockHash db1 firstBlock.hash
  { db := db2
    firstBlock := firstBlock
    currentBlock := firstBlock
    privateKey := privKey
    trieStatus := some .unlocked }

/-- `Chain.Block` (part_006): read the block from the persistence layer;
absent blocks surface the dedicated `ErrNoBlock` error. -/
def Chain.Block (c : Chain) (n : Nat) : Except ChainErr P2.Block :=
  match GetBlock c.db n with
  | none => .error .noBlock
  | some b => .ok b

/-- `Chain.LockAndGetTrie` (part_006): from a `nil` or `unlocked` status,
store `locked` and open the trie at the current block's root; a successful
open returns the trie. Every other path — a locked/unlocking status, or a
failed open — falls through to `ErrTrieIsAlreadyLocked`. -/
def Chain.LockAndGetTrie (c : Chain) : Except ChainErr Trie × Chain :=
  if c.trieStatus = none ∨ c.trieStatus = some .unlocked then
    let c1 := { c with trieStatus := some TrieStatus.locked }
    match trieNew c.currentBlock.trieRoot c.db with
    | some tr => (.ok tr, c1)
    | none => (.error .trieIsAlreadyLocked, c1)
  else (.error .trieIsAlreadyLocked, c)

/-- `Chain.UnlockTrie` (part_006): the body loads the status and the
`if sts == locked` branch is empty — nothing is committed and the status
is left unchanged. -/
def Chain.UnlockTrie (c : Chain) : Chain := c

end P6

namespace LesChainGo

/-- `Chain.Block` of src/les/observer/chain.go: the entire body is
commented out and the function returns `(nil, nil)` for every number —
no block and no error. -/
def ChainBlock (_number : Nat) : Option BlockGo.Block × Option P6.ChainErr :=
  (none, none)

end LesChainGo

namespace TrieDB

open Observer

/-- `trie.SecureTrie` model: a committed trie identified by its root hash
(`SecureTrie.Hash()` returns exactly this root). -/
structure SecureTrie where
  root : Bytes
deriving Repr, DecidableEq

/-- `maxPastTries`: capacity of the past-tries snapshot list. -/
def maxPastTries : Nat := 12

/-- `trieDatabase.pushTrie` (part_008): append the committed trie; at or
above capacity, shift the entries left (dropping index 0) and put the new
trie in the last slot. -/
def pushTrie (pastTries : List SecureTrie) (t : SecureTrie) : List SecureTrie :=
  if pastTries.length ≥ maxPastTries then pastTries.tail ++ [t]
  else pastTries ++ [t]

/-- The cache probe inside `OpenTrie`: scan `pastTries` from the most
recent (highest index) down to the oldest (index 0) for an exact root
match. -/
def cacheLookup (pastTries : List SecureTrie) (root : Bytes) : Option SecureTrie :=
  pastTries.reverse.find? (fun t => t.root == root)

/-- Result of `OpenTrie`, with the provenance of the returned trie kept
visible: a copy of a cached snapshot, a trie opened fresh from the backing
store, or a failure for an unresolvable root. -/
inductive OpenResult where
  | cacheHit (t : SecureTrie)
  | storeOpened (t : SecureTrie)
  | storeFailed
deriving Repr, DecidableEq

/-- `trieDatabase` (part_008): the backing store (its resolvable roots)
and the bounded list of past tries. -/
structure trieDatabase where
  resolvable : List Bytes := []
  pastTries : List SecureTrie := []
deriving Repr, DecidableEq

/-- `trieDatabase.OpenTrie` (part_008): return a copy of a cached snapshot
whose root matches, scanning newest-first; on a cache miss, open the trie
from the backing store (`trie.NewSecure`), failing for unresolvable roots. -/
def OpenTrie (tdb : trieDatabase) (root : Bytes) : OpenResult :=
  match cacheLookup tdb.pastTries root with
  | some t => .cacheHit t
  | none => if root ∈ tdb.resolvable then .storeOpened ⟨root⟩ else .storeFailed

end TrieDB

set_option maxRecDepth 1000000

/-! ## Sample inputs used by the witnesses -/

/-- A concrete statement content (`"foo" -> "bar"`). -/
def sampleKV : P8.keyValue := ⟨[102, 111, 111], [98, 97, 114], 1, 2, 3⟩

/-- A concrete part_001 header. -/
def sampleHeader : P1.Header :=
  ⟨Observer.zeroHash, 5, 1700000000, Observer.zeroHash, Observer.ecdsaType, [1, 2, 3]⟩

/-- A block with an empty statement set. -/
def sampleBlock0 : P1.Block := ⟨sampleHeader, []⟩

/-- A block with a single statement. -/
def sampleBlock1 : P1.Block := ⟨sampleHeader, [sampleKV]⟩

/-- A block with a multi-entry statement set. -/
def sampleBlock3 : P1.Block :=
  ⟨sampleHeader, [sampleKV, ⟨[], [], 0, 0, 0⟩, ⟨[1], [2], 3, 4, 5⟩]⟩

/-! ## Claims -/

/-- C8: Encoding and decoding are a canonical round-trip for statements and
blocks: for every well-formed statement content and block content, decoding
the encoding yields an equal object, and re-encoding the decoded object
reproduces byte-identical output; a decode failure surfaces the codec error
and leaves the statement object unchanged. -/
theorem C8_roundtrip :
    (∀ kv : P8.keyValue, RLP.wfB kv.toItem = true →
      P8.keyValue.decode (P8.keyValue.encode kv) = some kv ∧
      (P8.keyValue.decode (P8.keyValue.encode kv)).map P8.keyValue.encode
        = some (P8.keyValue.encode kv)) ∧
    (∀ b : P1.Block, b.header.wf → RLP.wfB b.toItem = true →
      P1.Block.decode (P1.Block.encode b) = some b ∧
      (P1.Block.decode (P1.Block.encode b)).map P1.Block.encode
        = some (P1.Block.encode b)) ∧
    (∀ (s : P8.Statement) (bs : Observer.Bytes),
      (P8.Statement.decodeRLP s bs).2.isSome → (P8.Statement.decodeRLP s bs).1 = s) := by
  refine ⟨?_, ?_, ?_⟩
  · intro kv h
    have hd := P8.keyValue.decode_encode_kv kv h
    exact ⟨hd, by rw [hd]; rfl⟩
  · intro b hw hwb
    have hd := P1.Block.decode_encode_blk b hw hwb
    exact ⟨hd, by rw [hd]; rfl⟩
  · intro s bs h
    unfold P8.Statement.decodeRLP at h ⊢
    cases hkv : P8.keyValue.decode bs with
    | some kv => rw [hkv] at h; simp at h
    | none => rfl

set_option maxRecDepth 100000 in
/-- Witness for C8 at concrete inputs: a statement and blocks with empty,
single-entry and multi-entry statement sets, plus a malformed input for the
failure path. -/
theorem C8_roundtrip_witness :
    RLP.wfB sampleKV.toItem = true ∧
    P8.keyValue.decode (P8.keyValue.encode sampleKV) = some sampleKV ∧
    sampleBlock0.header.wf ∧
    P1.Block.decode (P1.Block.encode sampleBlock0) = some sampleBlock0 ∧
    P1.Block.decode (P1.Block.encode sampleBlock1) = some sampleBlock1 ∧
    P1.Block.decode (P1.Block.encode sampleBlock3) = some sampleBlock3 ∧
    (P8.Statement.decodeRLP ⟨sampleKV, none, none⟩ [0]).2.isSome = true ∧
    (P8.Statement.decodeRLP ⟨sampleKV, none, none⟩ [0]).1 = ⟨sampleKV, none, none⟩ :=
  ⟨by decide,
   (C8_roundtrip.1 sampleKV (by decide)).1,
   by decide,
   (C8_roundtrip.2.1 sampleBlock0 (by decide) (by decide)).1,
   (C8_roundtrip.2.1 sampleBlock1 (by decide) (by decide)).1,
   (C8_roundtrip.2.1 sampleBlock3 (by decide) (by decide)).1,
   by decide,
   C8_roundtrip.2.2 ⟨sampleKV, none, none⟩ [0] (by decide)⟩

/-- C9: a block built from an empty statement list carries the empty-root
constant as its state root; a block built from a non-empty list carries the
root derived from the ordered statement sequence, which never equals the
empty-root constant. -/
theorem C9_empty_root (key now : Nat) :
    (BlockGo.NewBlock [] key now).data.Statements = Observer.emptyRootHash ∧
    (∀ sts : List P8.keyValue, sts ≠ [] →
      (BlockGo.NewBlock sts key now).data.Statements = Observer.deriveSha sts ∧
      Observer.deriveSha sts ≠ Observer.emptyRootHash) := by
  constructor
  · rfl
  · intro sts h
    refine ⟨?_, Observer.deriveSha_ne_empty h⟩
    simp [BlockGo.NewBlock, BlockGo.blockData.sign, h]

/-- Witness for C9 at a concrete key, timestamp and statement. -/
theorem C9_empty_root_witness :
    (BlockGo.NewBlock [] 7 100).data.Statements = Observer.emptyRootHash ∧
    (BlockGo.NewBlock [sampleKV] 7 100).data.Statements = Observer.deriveSha [sampleKV] ∧
    Observer.deriveSha [sampleKV] ≠ Observer.emptyRootHash :=
  ⟨(C9_empty_root 7 100).1,
   ((C9_empty_root 7 100).2 [sampleKV] (by decide)).1,
   ((C9_empty_root 7 100).2 [sampleKV] (by decide)).2⟩

/-- C7: the signing digest is keccak256 of the header encoding with the
`Signature` field unset (what `sign` signs and stores), while the identity
hash is keccak256 of the encoding with the populated `Signature`; for a
well-formed header with a non-empty signature the two digests differ. -/
theorem C7_signing_digest_vs_identity_hash (d : BlockGo.blockData) (key : Nat) :
    ((BlockGo.blockData.sign key d).Signature
        = Observer.ecdsaSign key (Observer.keccak256 (RLP.encodeItem d.unsigned.toItem))) ∧
    (BlockGo.blockData.hash d = Observer.keccak256 (RLP.encodeItem d.toItem)) ∧
    (RLP.wfB d.toItem = true → RLP.wfB d.unsigned.toItem = true →
      d.Signature ≠ [] → d.signingDigest ≠ d.hash) := by
  refine ⟨rfl, rfl, ?_⟩
  intro hwf hwfu hsig he
  have henc := Observer.keccak256_inj he
  have hit := RLP.encodeItem_inj hwfu hwf henc
  simp only [BlockGo.blockData.unsigned, BlockGo.blockData.toItem] at hit
  simp at hit
  exact hsig hit

/-- Witness for C7 at a concrete signed header. -/
theorem C7_signing_digest_witness :
    ((BlockGo.blockData.sign 3 ⟨Observer.zeroHash, 4, 9, Observer.zeroHash,
        Observer.ecdsaType, [7, 7]⟩).Signature
      = Observer.ecdsaSign 3 (Observer.keccak256 (RLP.encodeItem
          (BlockGo.blockData.unsigned ⟨Observer.zeroHash, 4, 9, Observer.zeroHash,
            Observer.ecdsaType, [7, 7]⟩).toItem))) ∧
    BlockGo.blockData.signingDigest
        ⟨Observer.zeroHash, 4, 9, Observer.zeroHash, Observer.ecdsaType, [7, 7]⟩
      ≠ BlockGo.blockData.hash
        ⟨Observer.zeroHash, 4, 9, Observer.zeroHash, Observer.ecdsaType, [7, 7]⟩ :=
  ⟨(C7_signing_digest_vs_identity_hash _ 3).1,
   (C7_signing_digest_vs_identity_hash
      ⟨Observer.zeroHash, 4, 9, Observer.zeroHash, Observer.ecdsaType, [7, 7]⟩ 3).2.2
     (by decide) (by decide) (by decide)⟩

/-- C3: `CreateSuccessor` produces a block whose `PrevHash` is the
predecessor's hash, whose number is the predecessor's plus one (within
uint64 range), carrying the fresh timestamp, the state root derived from
the statements, and a signature over its own signing digest. -/
theorem C3_create_successor (b : P1.BlockC) (stmts : List P8.keyValue)
    (key now : Nat) (h : b.header.Number + 1 < 2 ^ 64) :
    (b.CreateSuccessor stmts key now).header.PrevHash = b.Hash.1 ∧
    (b.CreateSuccessor stmts key now).header.Number = b.header.Number + 1 ∧
    (b.CreateSuccessor stmts key now).header.Time = now ∧
    (b.CreateSuccessor stmts key now).statements = stmts ∧
    (b.CreateSuccessor stmts key now).header.StmtsRoot
      = (if stmts = [] then Observer.emptyRootHash else Observer.deriveSha stmts) ∧
    (b.CreateSuccessor stmts key now).header.Signature
      = Observer.ecdsaSign key (b.CreateSuccessor stmts key now).header.signingDigest := by
  refine ⟨rfl, ?_, rfl, rfl, rfl, rfl⟩
  show (b.header.Number + 1) % 2 ^ 64 = b.header.Number + 1
  exact Nat.mod_eq_of_lt h

/-- Witness for C3 at a concrete predecessor and statement list. -/
theorem C3_create_successor_witness :
    (5 : Nat) + 1 < 2 ^ 64 ∧
    (P1.BlockC.CreateSuccessor ⟨sampleHeader, [], none⟩ [sampleKV] 3 42).header.Number
      = 5 + 1 ∧
    (P1.BlockC.CreateSuccessor ⟨sampleHeader, [], none⟩ [sampleKV] 3 42).header.PrevHash
      = (P1.BlockC.Hash ⟨sampleHeader, [], none⟩).1 :=
  ⟨by norm_num,
   (C3_create_successor ⟨sampleHeader, [], none⟩ [sampleKV] 3 42 (by decide)).2.1,
   (C3_create_successor ⟨sampleHeader, [], none⟩ [sampleKV] 3 42 (by decide)).1⟩

/-- C10: `Block.Hash` memoizes its result on the first call and `Sign`
never invalidates the cache: hashing, then signing, then hashing again
returns the pre-signature digest both times, even though `Sign` rewrote
the header's `Signature` field. -/
theorem C10_hash_memoization (b : P3.Block) (key : Nat) (h : b.hashCache = none) :
    (b.Hash.1 = b.header.Hash) ∧
    ((P3.Block.Sign key b.Hash.2).hashCache = some b.header.Hash) ∧
    ((P3.Block.Sign key b.Hash.2).header.Signature
      = Observer.ecdsaSign key
          (Observer.rlpHash (P3.Header.toItem { b.header with Signature := [] }))) ∧
    ((P3.Block.Sign key b.Hash.2).Hash.1 = b.Hash.1) := by
  have h1 : b.Hash = (b.header.Hash, { b with hashCache := some b.header.Hash }) := by
    unfold P3.Block.Hash
    rw [h]
  rw [h1]
  exact ⟨rfl, rfl, rfl, rfl⟩

/-- Witness for C10 at a concrete unsigned block. -/
theorem C10_hash_memoization_witness :
    (P3.Block.hashCache ⟨⟨Observer.zeroHash, 0, 9, Observer.zeroHash,
        Observer.ecdsaType, []⟩, none⟩ = none) ∧
    ((P3.Block.Sign 3 (P3.Block.Hash ⟨⟨Observer.zeroHash, 0, 9, Observer.zeroHash,
        Observer.ecdsaType, []⟩, none⟩).2).Hash.1
      = (P3.Block.Hash ⟨⟨Observer.zeroHash, 0, 9, Observer.zeroHash,
          Observer.ecdsaType, []⟩, none⟩).1) :=
  ⟨rfl,
   (C10_hash_memoization ⟨⟨Observer.zeroHash, 0, 9, Observer.zeroHash,
      Observer.ecdsaType, []⟩, none⟩ 3 rfl).2.2.2⟩

namespace RLP

/-- Encoding a byte string shorter than 56 bytes adds exactly one header
byte (or none for a small single byte). -/
theorem encodeBytes_length_le {s : List Nat} (h : s.length < 56) :
    (encodeItem (.bytes s)).length ≤ s.length + 1 := by
  match s with
  | [] => simp [encodeItem, encLen]
  | [b] =>
    simp only [encodeItem]
    split
    · simp
    · simp [encLen]
  | b1 :: b2 :: t =>
    simp only [encodeItem, encLen]
    rw [if_pos h]
    simp

end RLP

namespace P2

/-- A flat block all of whose fields are short byte strings is well-formed
for the codec. -/
theorem Block.toItem_wfB (b : Block) (h1 : b.PrevHash.length < 56)
    (h2 : (RLP.natToBe b.Number).length < 56)
    (h3 : (RLP.natToBe b.UnixTime).length < 56)
    (h4 : b.TrieRoot.length < 56) (h5 : b.SignatureType.length < 56)
    (h6 : b.Signature.length < 56) : RLP.wfB b.toItem = true := by
  have e1 := RLP.encodeBytes_length_le h1
  have e2 := RLP.encodeBytes_length_le h2
  have e3 := RLP.encodeBytes_length_le h3
  have e4 := RLP.encodeBytes_length_le h4
  have e5 := RLP.encodeBytes_length_le h5
  have e6 := RLP.encodeBytes_length_le h6
  simp only [Block.toItem, RLP.wfB, RLP.wfListB, RLP.encodePayload, Bool.and_eq_true,
    decide_eq_true_eq, List.length_append, List.length_nil, and_true]
  omega

end P2

/-- C4: chain construction is idempotent on the genesis: on an empty store
`NewChain` synthesizes a signed block with number 0 and zero parent hash,
records it as both first and current block, and persists the block record
and the head pointer; re-constructing against the resulting store loads the
same block back, so the first block's hash is identical — never a freshly
regenerated genesis. -/
theorem C4_genesis_idempotence (key t1 t2 : Nat) (h : t1 < 2 ^ 64) :
    ((P6.NewChain P6.Store.empty key t1).firstBlock.Number = 0) ∧
    ((P6.NewChain P6.Store.empty key t1).firstBlock.PrevHash = Observer.zeroHash) ∧
    ((P6.NewChain P6.Store.empty key t1).currentBlock
        = (P6.NewChain P6.Store.empty key t1).firstBlock) ∧
    ((P6.NewChain P6.Store.empty key t1).db.getBlockBytes 0
        = (P6.NewChain P6.Store.empty key t1).firstBlock.encode) ∧
    ((P6.NewChain P6.Store.empty key t1).db.head
        = some (P6.NewChain P6.Store.empty key t1).firstBlock.hash) ∧
    ((P6.NewChain (P6.NewChain P6.Store.empty key t1).db key t2).firstBlock
        = (P6.NewChain P6.Store.empty key t1).firstBlock) ∧
    ((P6.NewChain (P6.NewChain P6.Store.empty key t1).db key t2).firstBlock.hash
        = (P6.NewChain P6.Store.empty key t1).firstBlock.hash) := by
  have h256 : t1 < 256 ^ 8 := by norm_num at h ⊢; omega
  have ht8 : (RLP.natToBe t1).length ≤ 8 := RLP.natToBe_length_le h256
  have hwf : (P2.NewBlock key t1).wf := by
    refine ⟨?_, ?_, ?_, ?_⟩
    · simp [P2.NewBlock, P2.Block.sign, Observer.zeroHash]
    · show (0 : Nat) < 2 ^ 64
      norm_num
    · exact h
    · simp [P2.NewBlock, P2.Block.sign, Observer.zeroHash]
  have hwfB : RLP.wfB (P2.NewBlock key t1).toItem = true := by
    apply P2.Block.toItem_wfB
    · simp [P2.NewBlock, P2.Block.sign, Observer.zeroHash]
    · show (RLP.natToBe 0).length < 56
      decide
    · show (RLP.natToBe t1).length < 56
      omega
    · simp [P2.NewBlock, P2.Block.sign, Observer.zeroHash]
    · show Observer.ecdsaType.length < 56
      decide
    · simp [P2.NewBlock, P2.Block.sign, Observer.ecdsaSign]
  have hdec : P2.Block.decode (P2.NewBlock key t1).encode = some (P2.NewBlock key t1) :=
    P2.Block.decode_encode_flat _ hwf hwfB
  have hgetc1 : P6.GetBlock (P6.NewChain P6.Store.empty key t1).db 0
      = some (P2.NewBlock key t1) := by
    show (if (P2.NewBlock key t1).encode = []
      then none else P2.Block.decode (P2.NewBlock key t1).encode) = some (P2.NewBlock key t1)
    rw [if_neg (by exact RLP.encodeItem_ne_nil (P2.NewBlock key t1).toItem), hdec]
  have hNC : ∀ db : P6.Store, P6.GetBlock db 0 = some (P2.NewBlock key t1) →
      (P6.NewChain db key t2).firstBlock = P2.NewBlock key t1 := by
    intro db hdb
    unfold P6.NewChain
    rw [hdb]
  have hc2 := hNC _ hgetc1
  exact ⟨rfl, rfl, rfl, rfl, rfl, hc2, by rw [hc2]; rfl⟩

/-- Witness for C4 at a concrete key and timestamps. -/
theorem C4_genesis_idempotence_witness :
    (5 : Nat) < 2 ^ 64 ∧
    ((P6.NewChain (P6.NewChain P6.Store.empty 1 5).db 1 9).firstBlock.hash
      = (P6.NewChain P6.Store.empty 1 5).firstBlock.hash) ∧
    ((P6.NewChain P6.Store.empty 1 5).firstBlock.Number = 0) :=
  ⟨by norm_num,
   (C4_genesis_idempotence 1 5 9 (by norm_num)).2.2.2.2.2.2,
   (C4_genesis_idempotence 1 5 9 (by norm_num)).1⟩

/-- A 32-byte root that resolves to nothing: not the zero root, not the
empty root, and not committed to the store. -/
instance {e a : Type} [DecidableEq e] [DecidableEq a] : DecidableEq (Except e a) := fun x y =>
  match x, y with
  | .ok v, .ok w => if h : v = w then isTrue (by rw [h]) else isFalse (by intro hc; injection hc; exact h (by assumption))
  | .error v, .error w => if h : v = w then isTrue (by rw [h]) else isFalse (by intro hc; injection hc; exact h (by assumption))
  | .ok _, .error _ => isFalse (by intro hc; exact Except.noConfusion hc)
  | .error _, .ok _ => isFalse (by intro hc; exact Except.noConfusion hc)

def badRoot : Observer.Bytes := 1 :: List.replicate 31 0

/-- A chain value whose lock state is `unlocked` but whose current block
carries an unresolvable state root. -/
def lockCounterChain : P6.Chain :=
  { db := P6.Store.empty
    firstBlock := P2.NewBlock 1 0
    currentBlock := { P2.NewBlock 1 0 with TrieRoot := badRoot }
    privateKey := 1
    trieStatus := some P6.TrieStatus.unlocked }

/-- C1 counterexample: a chain in the `Unlocked` state for which
`LockAndGetTrie` nevertheless returns `ErrTrieIsAlreadyLocked` (the trie at
the current root fails to open, and the code conflates that failure with
lock contention) — and the lock state is left `Locked`. This refutes the
claimed "AlreadyLocked iff Locked or Unlocking" and "from Unlocked it
succeeds". -/
theorem C1_lock_and_get_trie_counterexample :
    lockCounterChain.trieStatus = some P6.TrieStatus.unlocked ∧
    lockCounterChain.LockAndGetTrie.1 = Except.error P6.ChainErr.trieIsAlreadyLocked ∧
    lockCounterChain.LockAndGetTrie.2.trieStatus = some P6.TrieStatus.locked := by
  decide

/-- C1 amended: `LockAndGetTrie` fails with `ErrTrieIsAlreadyLocked` from
`Locked`/`Unlocking` (leaving the chain unchanged); from `Unlocked` (or an
unset status) it always moves the state to `Locked`, returns the trie
opened at `current_block`'s state root when that opens, and returns
`ErrTrieIsAlreadyLocked` (with the state still moved to `Locked`) when the
open fails. -/
theorem C1_lock_and_get_trie_amended (c : P6.Chain) :
    ((c.trieStatus = some P6.TrieStatus.locked ∨
      c.trieStatus = some P6.TrieStatus.unlocking) →
      c.LockAndGetTrie = (Except.error P6.ChainErr.trieIsAlreadyLocked, c)) ∧
    ((c.trieStatus = none ∨ c.trieStatus = some P6.TrieStatus.unlocked) →
      (c.LockAndGetTrie.2.trieStatus = some P6.TrieStatus.locked ∧
       (∀ tr, P6.trieNew c.currentBlock.trieRoot c.db = some tr →
          tr.root = c.currentBlock.trieRoot ∧
          c.LockAndGetTrie
            = (Except.ok tr, { c with trieStatus := some P6.TrieStatus.locked })) ∧
       (P6.trieNew c.currentBlock.trieRoot c.db = none →
          c.LockAndGetTrie
            = (Except.error P6.ChainErr.trieIsAlreadyLocked,
               { c with trieStatus := some P6.TrieStatus.locked })))) := by
  constructor
  · intro hst
    have hnc : ¬(c.trieStatus = none ∨ c.trieStatus = some P6.TrieStatus.unlocked) := by
      rcases hst with h | h <;> rw [h] <;> simp
    unfold P6.Chain.LockAndGetTrie
    rw [if_neg hnc]
  · intro hcond
    unfold P6.Chain.LockAndGetTrie
    rw [if_pos hcond]
    refine ⟨?_, ?_, ?_⟩
    · cases htr : P6.trieNew c.currentBlock.trieRoot c.db <;> rfl
    · intro tr htr
      rw [htr]
      refine ⟨?_, rfl⟩
      unfold P6.trieNew at htr
      split at htr
      · have := Option.some.inj htr
        rw [← this]
      · exact absurd htr (by simp)
    · intro htr
      rw [htr]

/-- Witness for the amended C1 on a fresh chain: from `Unlocked` with a
resolvable (zero) root, the lock succeeds, transitions to `Locked` and
returns the trie at the current root. -/
theorem C1_lock_and_get_trie_witness :
    ((P6.NewChain P6.Store.empty 1 0).trieStatus = none ∨
     (P6.NewChain P6.Store.empty 1 0).trieStatus = some P6.TrieStatus.unlocked) ∧
    P6.trieNew (P6.NewChain P6.Store.empty 1 0).currentBlock.trieRoot
        (P6.NewChain P6.Store.empty 1 0).db = some ⟨Observer.zeroHash⟩ ∧
    (P6.NewChain P6.Store.empty 1 0).LockAndGetTrie
      = (Except.ok ⟨Observer.zeroHash⟩,
         { P6.NewChain P6.Store.empty 1 0 with trieStatus := some P6.TrieStatus.locked }) :=
  ⟨by decide, by decide,
   (((C1_lock_and_get_trie_amended (P6.NewChain P6.Store.empty 1 0)).2
      (by decide)).2.1 ⟨Observer.zeroHash⟩ (by decide)).2⟩

/-- C2 (code bug): `UnlockTrie`'s body is an empty `if` — it commits
nothing, pushes nothing, and leaves the lock state unchanged. On a fresh
chain that was locked once, calling `UnlockTrie` leaves the state `Locked`
and a subsequent `LockAndGetTrie` still fails with
`ErrTrieIsAlreadyLocked`, contrary to the claim. -/
theorem C2_unlock_trie_noop_bug :
    ((P6.NewChain P6.Store.empty 1 0).LockAndGetTrie.2.trieStatus
        = some P6.TrieStatus.locked) ∧
    (P6.Chain.UnlockTrie (P6.NewChain P6.Store.empty 1 0).LockAndGetTrie.2
        = (P6.NewChain P6.Store.empty 1 0).LockAndGetTrie.2) ∧
    ((P6.Chain.UnlockTrie (P6.NewChain P6.Store.empty 1 0).LockAndGetTrie.2).trieStatus
        = some P6.TrieStatus.locked) ∧
    ((P6.Chain.UnlockTrie
        (P6.NewChain P6.Store.empty 1 0).LockAndGetTrie.2).LockAndGetTrie.1
        = Except.error P6.ChainErr.trieIsAlreadyLocked) := by
  decide

/-- C6: the part_006 `Chain.Block` returns the dedicated `ErrNoBlock` when
the persistence layer has no such block and the stored block when it does,
while the src/les/observer/chain.go variant returns `(nil, nil)` for every
number — no block and no error. -/
theorem C6_block_not_found :
    (LesChainGo.ChainBlock 0 = (none, none)) ∧
    (∀ (c : P6.Chain) (n : Nat), P6.GetBlock c.db n = none →
      c.Block n = Except.error P6.ChainErr.noBlock) ∧
    (∀ (c : P6.Chain) (n : Nat) (b : P2.Block), P6.GetBlock c.db n = some b →
      c.Block n = Except.ok b) := by
  refine ⟨rfl, ?_, ?_⟩
  · intro c n hg
    unfold P6.Chain.Block
    rw [hg]
  · intro c n b hg
    unfold P6.Chain.Block
    rw [hg]

/-- Witness for C6 on a fresh chain: block 5 is absent and surfaces
`ErrNoBlock`; block 0 is present and returned. -/
theorem C6_block_not_found_witness :
    (P6.GetBlock (P6.NewChain P6.Store.empty 1 0).db 5 = none) ∧
    ((P6.NewChain P6.Store.empty 1 0).Block 5 = Except.error P6.ChainErr.noBlock) ∧
    (P6.GetBlock (P6.NewChain P6.Store.empty 1 0).db 0 = some (P2.NewBlock 1 0)) ∧
    ((P6.NewChain P6.Store.empty 1 0).Block 0 = Except.ok (P2.NewBlock 1 0)) :=
  ⟨by decide,
   C6_block_not_found.2.1 _ 5 (by decide),
   by decide,
   C6_block_not_found.2.2 _ 0 (P2.NewBlock 1 0) (by decide)⟩

namespace TrieDB

theorem pushTrie_length_le {l : List SecureTrie} (h : l.length ≤ maxPastTries)
    (t : SecureTrie) : (pushTrie l t).length ≤ maxPastTries := by
  unfold pushTrie
  split
  · cases l with
    | nil => simp_all [maxPastTries]
    | cons x xs =>
      simp only [List.tail_cons, List.length_append, List.length_cons, List.length_nil]
      simp only [List.length_cons] at h
      omega
  · simp only [List.length_append, List.length_cons, List.length_nil]
    omega

theorem foldl_pushTrie_length_le (ts : List SecureTrie) :
    ∀ l : List SecureTrie, l.length ≤ maxPastTries →
      (ts.foldl pushTrie l).length ≤ maxPastTries := by
  induction ts with
  | nil => intro l h; simpa using h
  | cons t ts ih =>
    intro l h
    simpa using ih (pushTrie l t) (pushTrie_length_le h t)

theorem cacheLookup_isSome_of_mem {past : List SecureTrie} {t : SecureTrie}
    (h : t ∈ past) : (cacheLookup past t.root).isSome := by
  unfold cacheLookup
  rw [List.find?_isSome]
  exact ⟨t, by simpa using h, by simp⟩

end TrieDB

/-- C5: the snapshot cache never exceeds 12 tries, and eviction is strictly
oldest-first: after pushing 13 tries with pairwise-distinct roots into an
empty cache, the list holds exactly the 2nd through 13th tries; the 1st
root has no cache entry (so `OpenTrie` must fall back to the backing
store), while each of the most recent 12 roots is still served from the
cache. -/
theorem C5_fifo_snapshot_cache :
    (∀ ts : List TrieDB.SecureTrie,
      (ts.foldl TrieDB.pushTrie []).length ≤ TrieDB.maxPastTries) ∧
    (∀ r0 r1 r2 r3 r4 r5 r6 r7 r8 r9 r10 r11 r12 : Observer.Bytes,
      r0 ∉ [r1, r2, r3, r4, r5, r6, r7, r8, r9, r10, r11, r12] →
      (([⟨r0⟩, ⟨r1⟩, ⟨r2⟩, ⟨r3⟩, ⟨r4⟩, ⟨r5⟩, ⟨r6⟩, ⟨r7⟩, ⟨r8⟩, ⟨r9⟩, ⟨r10⟩, ⟨r11⟩, ⟨r12⟩]
          : List TrieDB.SecureTrie).foldl TrieDB.pushTrie []
        = [⟨r1⟩, ⟨r2⟩, ⟨r3⟩, ⟨r4⟩, ⟨r5⟩, ⟨r6⟩, ⟨r7⟩, ⟨r8⟩, ⟨r9⟩, ⟨r10⟩, ⟨r11⟩, ⟨r12⟩]) ∧
      (TrieDB.cacheLookup
        (([⟨r0⟩, ⟨r1⟩, ⟨r2⟩, ⟨r3⟩, ⟨r4⟩, ⟨r5⟩, ⟨r6⟩, ⟨r7⟩, ⟨r8⟩, ⟨r9⟩, ⟨r10⟩, ⟨r11⟩, ⟨r12⟩]
          : List TrieDB.SecureTrie).foldl TrieDB.pushTrie []) r0 = none) ∧
      (∀ r, r ∈ [r1, r2, r3, r4, r5, r6, r7, r8, r9, r10, r11, r12] →
        (TrieDB.cacheLookup
          (([⟨r0⟩, ⟨r1⟩, ⟨r2⟩, ⟨r3⟩, ⟨r4⟩, ⟨r5⟩, ⟨r6⟩, ⟨r7⟩, ⟨r8⟩, ⟨r9⟩, ⟨r10⟩, ⟨r11⟩, ⟨r12⟩]
            : List TrieDB.SecureTrie).foldl TrieDB.pushTrie []) r).isSome) ∧
      (∀ tdb : TrieDB.trieDatabase,
        tdb.pastTries
          = [⟨r1⟩, ⟨r2⟩, ⟨r3⟩, ⟨r4⟩, ⟨r5⟩, ⟨r6⟩, ⟨r7⟩, ⟨r8⟩, ⟨r9⟩, ⟨r10⟩, ⟨r11⟩, ⟨r12⟩] →
        (∀ t, TrieDB.OpenTrie tdb r0 ≠ TrieDB.OpenResult.cacheHit t) ∧
        (∀ r, r ∈ [r1, r2, r3, r4, r5, r6, r7, r8, r9, r10, r11, r12] →
          ∃ t, TrieDB.OpenTrie tdb r = TrieDB.OpenResult.cacheHit t))) := by
  constructor
  · intro ts
    exact TrieDB.foldl_pushTrie_length_le ts [] (by simp [TrieDB.maxPastTries])
  · intro r0 r1 r2 r3 r4 r5 r6 r7 r8 r9 r10 r11 r12 hmem
    simp only [List.mem_cons, List.not_mem_nil, or_false, not_or] at hmem
    obtain ⟨n1, n2, n3, n4, n5, n6, n7, n8, n9, n10, n11, n12⟩ := hmem
    have hfold : (([⟨r0⟩, ⟨r1⟩, ⟨r2⟩, ⟨r3⟩, ⟨r4⟩, ⟨r5⟩, ⟨r6⟩, ⟨r7⟩, ⟨r8⟩, ⟨r9⟩, ⟨r10⟩,
        ⟨r11⟩, ⟨r12⟩] : List TrieDB.SecureTrie).foldl TrieDB.pushTrie []
        = [⟨r1⟩, ⟨r2⟩, ⟨r3⟩, ⟨r4⟩, ⟨r5⟩, ⟨r6⟩, ⟨r7⟩, ⟨r8⟩, ⟨r9⟩, ⟨r10⟩, ⟨r11⟩, ⟨r12⟩]) := by
      simp [TrieDB.pushTrie, TrieDB.maxPastTries]
    have hnone : TrieDB.cacheLookup
        ([⟨r1⟩, ⟨r2⟩, ⟨r3⟩, ⟨r4⟩, ⟨r5⟩, ⟨r6⟩, ⟨r7⟩, ⟨r8⟩, ⟨r9⟩, ⟨r10⟩, ⟨r11⟩, ⟨r12⟩]
          : List TrieDB.SecureTrie) r0 = none := by
      unfold TrieDB.cacheLookup
      rw [List.find?_eq_none]
      intro t ht
      simp only [List.mem_reverse, List.mem_cons, List.not_mem_nil, or_false] at ht
      rcases ht with rfl | rfl | rfl | rfl | rfl | rfl | rfl | rfl | rfl | rfl | rfl | rfl <;>
        simp_all [Ne.symm]
    refine ⟨hfold, by rw [hfold]; exact hnone, ?_, ?_⟩
    · intro r hr
      rw [hfold]
      simp only [List.mem_cons, List.not_mem_nil, or_false] at hr
      rcases hr with rfl | rfl | rfl | rfl | rfl | rfl | rfl | rfl | rfl | rfl | rfl | rfl <;>
        exact TrieDB.cacheLookup_isSome_of_mem (by simp)
    · intro tdb htdb
      constructor
      · intro t hc
        unfold TrieDB.OpenTrie at hc
        rw [htdb, hnone] at hc
        have hc2 : (if r0 ∈ tdb.resolvable then TrieDB.OpenResult.storeOpened ⟨r0⟩
            else TrieDB.OpenResult.storeFailed) = TrieDB.OpenResult.cacheHit t := hc
        split at hc2 <;> simp at hc2
      · intro r hr
        have hs : (TrieDB.cacheLookup tdb.pastTries r).isSome := by
          rw [htdb]
          simp only [List.mem_cons, List.not_mem_nil, or_false] at hr
          rcases hr with rfl | rfl | rfl | rfl | rfl | rfl | rfl | rfl | rfl | rfl | rfl | rfl <;>
            exact TrieDB.cacheLookup_isSome_of_mem (by simp)
        obtain ⟨t, ht⟩ := Option.isSome_iff_exists.mp hs
        refine ⟨t, ?_⟩
        unfold TrieDB.OpenTrie
        rw [ht]

/-- Witness for C5 at thirteen concrete distinct roots. -/
theorem C5_fifo_snapshot_cache_witness :
    ([0] : Observer.Bytes) ∉
      ([[1], [2], [3], [4], [5], [6], [7], [8], [9], [10], [11], [12]]
        : List Observer.Bytes) ∧
    (TrieDB.cacheLookup
      (([⟨[0]⟩, ⟨[1]⟩, ⟨[2]⟩, ⟨[3]⟩, ⟨[4]⟩, ⟨[5]⟩, ⟨[6]⟩, ⟨[7]⟩, ⟨[8]⟩, ⟨[9]⟩, ⟨[10]⟩,
        ⟨[11]⟩, ⟨[12]⟩] : List TrieDB.SecureTrie).foldl TrieDB.pushTrie []) [0] = none) ∧
    (TrieDB.cacheLookup
      (([⟨[0]⟩, ⟨[1]⟩, ⟨[2]⟩, ⟨[3]⟩, ⟨[4]⟩, ⟨[5]⟩, ⟨[6]⟩, ⟨[7]⟩, ⟨[8]⟩, ⟨[9]⟩, ⟨[10]⟩,
        ⟨[11]⟩, ⟨[12]⟩] : List TrieDB.SecureTrie).foldl TrieDB.pushTrie []) [1]).isSome :=
  ⟨by decide,
   ((C5_fifo_snapshot_cache.2 [0] [1] [2] [3] [4] [5] [6] [7] [8] [9] [10] [11] [12]
      (by decide)).2.1),
   ((C5_fifo_snapshot_cache.2 [0] [1] [2] [3] [4] [5] [6] [7] [8] [9] [10] [11] [12]
      (by decide)).2.2.1 [1] (by decide))⟩
